import Mathlib

/-!
Verification of the Bovine-Breed-App data/workflow layer (`src/breed.py`).

The SQLite-backed credential store and prediction store are embedded as pure
functions over an explicit database state; the Streamlit handlers that the
claims mention (`page_auth`'s signup branch, `page_upload`'s save branch) are
embedded as functions from the session state to the new state plus the message
shown.  External library calls (SHA-256, PIL resize, the Keras forward pass)
are modelled as abstract functions; no claim depends on anything beyond their
determinism.
-/

namespace Breed

/-- A row of the `users` table (`breed.py` lines 14-21): autoincrement id,
UNIQUE email, password hash, and three nullable profile columns. -/
structure UserRow where
  id : Nat
  email : String
  password : String
  name : Option String
  phone : Option String
  address : Option String
deriving Repr, DecidableEq

/-- A row of the `predictions` table (`breed.py` lines 23-34), fields in
schema order. -/
structure PredRow where
  id : Nat
  user_id : Nat
  breed : String
  height : ℚ
  weight : ℚ
  gender : String
  image_path : String
  age : ℚ
  created_at : String
deriving Repr, DecidableEq

/-- The state of `users.db`: both tables in insertion order, plus the next
AUTOINCREMENT id of each.  SQLite's AUTOINCREMENT hands out strictly
increasing ids, modelled by the counters. -/
structure DB where
  users : List UserRow
  next_user_id : Nat
  preds : List PredRow
  next_pred_id : Nat
deriving Repr, DecidableEq

/-- The freshly created database: both tables empty, ids starting at 1. -/
def DB.empty : DB := ⟨[], 1, [], 1⟩

/-- `hash_pw` (`breed.py` line 38) is `hashlib.sha256(p.encode()).hexdigest()`.
SHA-256 is an external library call, modelled as an abstract deterministic
injection of the password into hex-digest strings; no claim under
verification depends on any other property of the hash. -/
def hash_pw (p : String) : String := "sha256:" ++ p

/-- Errors the store operations can raise.  `DuplicateAccount` is the
`sqlite3.IntegrityError` raised by the UNIQUE constraint on `users.email`. -/
inductive DbError where
  | DuplicateAccount
deriving Repr, DecidableEq

/-- `add_user` (`breed.py` lines 40-43): `INSERT INTO users(email,password)
VALUES(?,?)` with the hashed password.  The UNIQUE constraint on `email`
makes the insert raise `IntegrityError` when the email is already present;
otherwise the new row gets the next autoincrement id and NULL profile
columns. -/
def add_user (db : DB) (email pw : String) : Except DbError DB :=
  if db.users.any (fun u => u.email == email) then
    .error .DuplicateAccount
  else
    .ok { db with
          users := db.users ++ [⟨db.next_user_id, email, hash_pw pw, none, none, none⟩],
          next_user_id := db.next_user_id + 1 }

/-- `login_user` (`breed.py` lines 45-49): `SELECT * FROM users WHERE email=?
AND password=?` with the hashed password, then `fetchone()` — the first row
matching both columns, or `None`. -/
def login_user (db : DB) (email pw : String) : Option UserRow :=
  db.users.find? (fun u => u.email == email && u.password == hash_pw pw)

/-- `save_prediction` (`breed.py` lines 51-57): inserts one row into
`predictions` stamped with the current time `now`.  The schema declares
`FOREIGN KEY(user_id) REFERENCES users(id)`, but the program never issues
`PRAGMA foreign_keys = ON`, and sqlite3 leaves foreign-key enforcement off
by default — so the insert succeeds for any `uid`, referenced or not. -/
def save_prediction (db : DB) (uid : Nat) (breed : String) (h w age : ℚ)
    (g path now : String) : DB :=
  { db with
    preds := db.preds ++ [⟨db.next_pred_id, uid, breed, h, w, g, path, age, now⟩],
    next_pred_id := db.next_pred_id + 1 }

/-- The row shape produced by `get_records`'s projection
`SELECT breed,height,weight,age,gender,image_path,created_at`. -/
structure RecordRow where
  breed : String
  height : ℚ
  weight : ℚ
  age : ℚ
  gender : String
  image_path : String
  created_at : String
deriving Repr, DecidableEq

/-- Insert a `predictions` row into a list kept in descending-id order. -/
def insertByIdDesc (r : PredRow) : List PredRow → List PredRow
  | [] => [r]
  | x :: xs => if x.id ≤ r.id then r :: x :: xs else x :: insertByIdDesc r xs

/-- `ORDER BY id DESC`: sort rows by descending id (insertion sort). -/
def orderByIdDesc (l : List PredRow) : List PredRow :=
  l.foldr insertByIdDesc []

/-- Project a `predictions` row onto the columns `get_records` selects. -/
def PredRow.toRecord (r : PredRow) : RecordRow :=
  ⟨r.breed, r.height, r.weight, r.age, r.gender, r.image_path, r.created_at⟩

/-- `get_records` (`breed.py` lines 59-63): the rows of `predictions` with
`user_id = uid`, ordered by id descending, projected onto the selected
columns. -/
def get_records (db : DB) (uid : Nat) : List RecordRow :=
  (orderByIdDesc (db.preds.filter (fun r => r.user_id == uid))).map PredRow.toRecord

/-- `update_profile` (`breed.py` lines 65-68): `UPDATE users SET
name=?,phone=?,address=? WHERE id=?`.  Every row whose id matches gets the
three profile columns overwritten; an `UPDATE` matching no row is a silent
no-op in SQL, not an error. -/
def update_profile (db : DB) (uid : Nat) (n p a : String) : DB :=
  { db with
    users := db.users.map (fun u =>
      if u.id = uid then { u with name := some n, phone := some p, address := some a }
      else u) }

/-- A decoded bitmap image (the PIL image the UI hands to `predict`),
modelled by its raw pixel grid. -/
structure Img where
  pixels : List (List (List ℚ))
deriving Repr, DecidableEq

/-- The loaded classifier in Ready state.  `scores img` is the score vector
`model.predict(arr)[0]` that the forward pass produces for the resized,
normalised image (`breed.py` lines 96-99); PIL's `resize` and the Keras
forward pass are external library calls, modelled together as one abstract
function from the input image to the score vector. -/
structure Model where
  scores : Img → List ℚ

/-- Python `dict.get(k, default)` on the label index `idx_to_class`. -/
def dictGet (m : List (Nat × String)) (k : Nat) (dflt : String) : String :=
  match m.find? (fun e => e.1 == k) with
  | some e => e.2
  | none => dflt

/-- `np.argmax` over a score row: the index of the first occurrence of the
maximum.  `best`/`bestv` track the current winner, `i` the next index. -/
def argmaxAux : List ℚ → Nat → Nat → ℚ → Nat
  | [], _, best, _ => best
  | x :: xs, i, best, bestv =>
      if bestv < x then argmaxAux xs (i + 1) i x
      else argmaxAux xs (i + 1) best bestv

/-- `int(np.argmax(p[0]))` for a nonempty score row (`breed.py` line 100). -/
def np_argmax : List ℚ → Nat
  | [] => 0
  | x :: xs => argmaxAux xs 1 0 x

/-- `predict` (`breed.py` lines 93-101).  With no model loaded (Unavailable
state, `model is None`) it returns the sentinel `("Unknown", 0)`.  Otherwise
it runs the forward pass, takes the stable argmax `idx` of the score row,
and returns `idx_to_class.get(idx, "Unknown")` together with
`p[0][idx] * 100`. -/
def predict (model : Option Model) (idx_to_class : List (Nat × String))
    (img : Img) : String × ℚ :=
  match model with
  | none => ("Unknown", 0)
  | some m =>
    let p := m.scores img
    let idx := np_argmax p
    (dictGet idx_to_class idx "Unknown", p.getD idx 0 * 100)

/-- The message `page_auth`'s signup branch shows (`breed.py` lines 144-149). -/
inductive SignupMsg where
  | userCreated
  | emailExistsOrError
deriving Repr, DecidableEq

/-- The signup branch of `page_auth` (`breed.py` lines 144-149): call
`add_user` inside `try`; on success show "User created", on exception keep
the database as it was and show "Email exists or error". -/
def page_auth_signup (db : DB) (email pw : String) : DB × SignupMsg :=
  match add_user db email pw with
  | .ok db' => (db', .userCreated)
  | .error _ => (db, .emailExistsOrError)

/-- The message the save-form branch of `page_upload` shows
(`breed.py` lines 184-189). -/
inductive SaveMsg where
  | saved
  | loginFirst
deriving Repr, DecidableEq

/-- The "Save Result" handler of `page_upload` (`breed.py` lines 184-189):
with an authenticated user it calls `save_prediction` with that user's id
and shows "Saved"; with no user it leaves the database untouched and warns
"Login first to save". -/
def page_upload_save (db : DB) (user : Option UserRow) (breed : String)
    (h w a : ℚ) (g path now : String) : DB × SaveMsg :=
  match user with
  | some u => (save_prediction db u.id breed h w a g path now, .saved)
  | none => (db, .loginFirst)

/-! ## Theorems -/

/-- C1: for every database in which no account has the given email,
`add_user(email, pw)` succeeds, and `login_user(email, pw)` on the resulting
database returns a user record whose email is the supplied email. -/
theorem createAccount_then_authenticate (db : DB) (email pw : String)
    (hfresh : ∀ u ∈ db.users, u.email ≠ email) :
    ∃ db', add_user db email pw = .ok db' ∧
      ∃ u, login_user db' email pw = some u ∧ u.email = email := by
  have hany : db.users.any (fun u => u.email == email) = false := by
    simp only [List.any_eq_false]
    intro u hu
    simp [hfresh u hu]
  refine ⟨{ db with
            users := db.users ++ [⟨db.next_user_id, email, hash_pw pw, none, none, none⟩],
            next_user_id := db.next_user_id + 1 }, ?_, ?_⟩
  · simp [add_user, hany]
  · refine ⟨⟨db.next_user_id, email, hash_pw pw, none, none, none⟩, ?_, rfl⟩
    have hnone :
        db.users.find? (fun u => u.email == email && u.password == hash_pw pw) = none := by
      rw [List.find?_eq_none]
      intro u hu
      simp [hfresh u hu]
    simp [login_user, List.find?_append, hnone, List.find?]

/-- C1 witness: on the empty database, creating the account `a@x.com` and
logging straight back in succeeds and returns a user with that email. -/
theorem createAccount_then_authenticate_witness :
    (∀ u ∈ DB.empty.users, u.email ≠ "a@x.com") ∧
    (∃ db', add_user DB.empty "a@x.com" "pw1" = .ok db' ∧
      ∃ u, login_user db' "a@x.com" "pw1" = some u ∧ u.email = "a@x.com") :=
  ⟨by simp [DB.empty],
   createAccount_then_authenticate DB.empty "a@x.com" "pw1" (by simp [DB.empty])⟩

/-- C4: signing up with an email already present raises `DuplicateAccount`
(the UNIQUE-constraint `IntegrityError`), and the `page_auth` handler that
catches it leaves the database — in particular the users table and its
size — unchanged. -/
theorem createAccount_duplicate_fails (db : DB) (email pw : String)
    (hdup : ∃ u ∈ db.users, u.email = email) :
    add_user db email pw = .error .DuplicateAccount ∧
      (page_auth_signup db email pw).1 = db ∧
      (page_auth_signup db email pw).1.users.length = db.users.length ∧
      (page_auth_signup db email pw).2 = .emailExistsOrError := by
  have hany : db.users.any (fun u => u.email == email) = true := by
    obtain ⟨u, hu, he⟩ := hdup
    exact List.any_eq_true.2 ⟨u, hu, by simp [he]⟩
  have h : add_user db email pw = .error .DuplicateAccount := by
    simp [add_user, hany]
  exact ⟨h, by simp [page_auth_signup, h], by simp [page_auth_signup, h],
         by simp [page_auth_signup, h]⟩

/-- C4 witness: on a database holding the account `a@x.com`, signing up with
`a@x.com` again fails with `DuplicateAccount` and changes nothing. -/
theorem createAccount_duplicate_fails_witness :
    (∃ u ∈ (DB.mk [⟨1, "a@x.com", hash_pw "pw1", none, none, none⟩] 2 [] 1).users,
       u.email = "a@x.com") ∧
    (add_user (DB.mk [⟨1, "a@x.com", hash_pw "pw1", none, none, none⟩] 2 [] 1)
       "a@x.com" "other" = .error .DuplicateAccount ∧
     (page_auth_signup (DB.mk [⟨1, "a@x.com", hash_pw "pw1", none, none, none⟩] 2 [] 1)
        "a@x.com" "other").1
       = DB.mk [⟨1, "a@x.com", hash_pw "pw1", none, none, none⟩] 2 [] 1 ∧
     (page_auth_signup (DB.mk [⟨1, "a@x.com", hash_pw "pw1", none, none, none⟩] 2 [] 1)
        "a@x.com" "other").1.users.length
       = (DB.mk [⟨1, "a@x.com", hash_pw "pw1", none, none, none⟩] 2 [] 1).users.length ∧
     (page_auth_signup (DB.mk [⟨1, "a@x.com", hash_pw "pw1", none, none, none⟩] 2 [] 1)
        "a@x.com" "other").2 = .emailExistsOrError) :=
  ⟨⟨⟨1, "a@x.com", hash_pw "pw1", none, none, none⟩, by simp, rfl⟩,
   createAccount_duplicate_fails _ "a@x.com" "other"
     ⟨⟨1, "a@x.com", hash_pw "pw1", none, none, none⟩, by simp, rfl⟩⟩

/-- C9: `login_user` returns a user record exactly when an account with the
given email exists whose stored hash is the hash of the supplied password
(and any record returned is such an account); and a wrong password against
an existing account is indistinguishable from a nonexistent email — both
produce the same "no match" result. -/
theorem authenticate_iff_no_leak (db : DB) (email pw : String) :
    (∀ u, login_user db email pw = some u →
       u ∈ db.users ∧ u.email = email ∧ u.password = hash_pw pw) ∧
    ((∃ u ∈ db.users, u.email = email ∧ u.password = hash_pw pw) ↔
       ∃ u, login_user db email pw = some u) ∧
    (∀ db₂ e₂ p₂,
       (∀ u ∈ db.users, u.email = email → u.password ≠ hash_pw pw) →
       (∀ u ∈ db₂.users, u.email ≠ e₂) →
       login_user db email pw = login_user db₂ e₂ p₂) := by
  refine ⟨?_, ?_, ?_⟩
  · intro u hu
    have hmem := List.mem_of_find?_eq_some hu
    have hp := List.find?_some hu
    simp only [Bool.and_eq_true, beq_iff_eq] at hp
    exact ⟨hmem, hp.1, hp.2⟩
  · constructor
    · rintro ⟨u, hu, he, hp⟩
      rcases hsome : login_user db email pw with _ | v
      · rw [login_user, List.find?_eq_none] at hsome
        exact absurd (by simp [he, hp]) (hsome u hu)
      · exact ⟨v, rfl⟩
    · rintro ⟨u, hu⟩
      have hmem := List.mem_of_find?_eq_some hu
      have hp := List.find?_some hu
      simp only [Bool.and_eq_true, beq_iff_eq] at hp
      exact ⟨u, hmem, hp.1, hp.2⟩
  · intro db₂ e₂ p₂ hwrong hnoacct
    have h₁ : login_user db email pw = none := by
      rw [login_user, List.find?_eq_none]
      intro u hu
      by_cases he : u.email = email
      · simp [he, hwrong u hu he]
      · simp [he]
    have h₂ : login_user db₂ e₂ p₂ = none := by
      rw [login_user, List.find?_eq_none]
      intro u hu
      simp [hnoacct u hu]
    rw [h₁, h₂]

/-- C9 witness: a wrong password for the stored account `a@x.com` and a
login against an empty database produce identical results. -/
theorem authenticate_iff_no_leak_witness :
    login_user (DB.mk [⟨1, "a@x.com", hash_pw "pw1", none, none, none⟩] 2 [] 1)
        "a@x.com" "wrong"
      = login_user DB.empty "b@x.com" "pw" :=
  (authenticate_iff_no_leak
      (DB.mk [⟨1, "a@x.com", hash_pw "pw1", none, none, none⟩] 2 [] 1)
      "a@x.com" "wrong").2.2 DB.empty "b@x.com" "pw"
    (by intro u hu he; simp at hu; simp [hu, hash_pw])
    (by simp [DB.empty])

/-- C5 counterexample: on the empty database (user id 1 does not exist)
`update_profile` does not fail with `NotFound` — the `UPDATE ... WHERE id=?`
matches no row and returns normally with the database unchanged.  The code
has no `NotFound` outcome at all. -/
theorem updateProfile_missing_user_cex :
    update_profile DB.empty 1 "n" "p" "a" = DB.empty := rfl

/-- C5 amended: if no user has the given id, `update_profile` succeeds as a
silent no-op (the database is unchanged, no error is raised); if a user has
that id, its name, phone and address are overwritten unconditionally. -/
theorem updateProfile_amended (db : DB) (uid : Nat) (n p a : String) :
    ((∀ u ∈ db.users, u.id ≠ uid) → update_profile db uid n p a = db) ∧
    (∀ (i : Nat) (u : UserRow), db.users[i]? = some u → u.id = uid →
       (update_profile db uid n p a).users[i]?
         = some { u with name := some n, phone := some p, address := some a }) := by
  constructor
  · intro hno
    have hmap : db.users.map (fun u =>
        if u.id = uid then { u with name := some n, phone := some p, address := some a }
        else u) = db.users := by
      conv_rhs => rw [show db.users = db.users.map id from (List.map_id db.users).symm]
      refine List.map_congr_left ?_
      intro u hu
      simp [hno u hu]
    simp [update_profile, hmap]
  · intro i u hget hid
    simp [update_profile, List.getElem?_map, hget, hid]

/-- C5 amended witness: updating profile of the (existing) user with id 1
overwrites its profile columns; updating a missing id on the empty database
changes nothing. -/
theorem updateProfile_amended_witness :
    ((∀ u ∈ DB.empty.users, u.id ≠ 7) → update_profile DB.empty 7 "x" "y" "z" = DB.empty) ∧
    ((DB.mk [⟨1, "a@x.com", hash_pw "pw1", none, none, none⟩] 2 [] 1).users[0]?
        = some ⟨1, "a@x.com", hash_pw "pw1", none, none, none⟩ →
      (1 : Nat) = 1 →
      (update_profile (DB.mk [⟨1, "a@x.com", hash_pw "pw1", none, none, none⟩] 2 [] 1)
          1 "Aryan" "123" "Pune").users[0]?
        = some ⟨1, "a@x.com", hash_pw "pw1", some "Aryan", some "123", some "Pune"⟩) :=
  ⟨(updateProfile_amended DB.empty 7 "x" "y" "z").1,
   (updateProfile_amended
      (DB.mk [⟨1, "a@x.com", hash_pw "pw1", none, none, none⟩] 2 [] 1)
      1 "Aryan" "123" "Pune").2 0 ⟨1, "a@x.com", hash_pw "pw1", none, none, none⟩⟩

/-- C10: `update_profile` touches nothing but the name, phone and address of
rows whose id matches: the predictions table, both id counters and the
number of user rows are unchanged, every row keeps its id, email and
password hash, and a row with a different id is unchanged entirely. -/
theorem updateProfile_frame (db : DB) (uid : Nat) (n p a : String) :
    (update_profile db uid n p a).preds = db.preds ∧
    (update_profile db uid n p a).next_pred_id = db.next_pred_id ∧
    (update_profile db uid n p a).next_user_id = db.next_user_id ∧
    (update_profile db uid n p a).users.length = db.users.length ∧
    (∀ (i : Nat) (u u' : UserRow), db.users[i]? = some u →
       (update_profile db uid n p a).users[i]? = some u' →
       u'.id = u.id ∧ u'.email = u.email ∧ u'.password = u.password ∧
       (u.id ≠ uid → u' = u)) := by
  refine ⟨rfl, rfl, rfl, by simp [update_profile], ?_⟩
  intro i u u' hget hget'
  simp only [update_profile, List.getElem?_map, hget, Option.map_some,
             Option.map_some', Option.some_inj] at hget'
  by_cases hid : u.id = uid
  · rw [if_pos hid] at hget'
    rw [← hget']
    exact ⟨rfl, rfl, rfl, fun hne => absurd hid hne⟩
  · rw [if_neg hid] at hget'
    rw [← hget']
    exact ⟨rfl, rfl, rfl, fun _ => rfl⟩

/-- C10 witness: updating user 1's profile in a two-user database leaves
user 2's row, all ids, emails, password hashes and the predictions table
unchanged. -/
theorem updateProfile_frame_witness :
    (update_profile (DB.mk [⟨1, "a@x.com", hash_pw "pw1", none, none, none⟩,
        ⟨2, "b@x.com", hash_pw "pw2", none, none, none⟩] 3 [] 1) 1 "N" "P" "A").users[1]?
        = some ⟨2, "b@x.com", hash_pw "pw2", none, none, none⟩ ∧
    (update_profile (DB.mk [⟨1, "a@x.com", hash_pw "pw1", none, none, none⟩,
        ⟨2, "b@x.com", hash_pw "pw2", none, none, none⟩] 3 [] 1) 1 "N" "P" "A").preds = [] := by
  have h := updateProfile_frame (DB.mk [⟨1, "a@x.com", hash_pw "pw1", none, none, none⟩,
      ⟨2, "b@x.com", hash_pw "pw2", none, none, none⟩] 3 [] 1) 1 "N" "P" "A"
  have h2 := h.2.2.2.2 1 ⟨2, "b@x.com", hash_pw "pw2", none, none, none⟩
      ((update_profile (DB.mk [⟨1, "a@x.com", hash_pw "pw1", none, none, none⟩,
        ⟨2, "b@x.com", hash_pw "pw2", none, none, none⟩] 3 [] 1) 1 "N" "P" "A").users.getD 1
        ⟨0, "", "", none, none, none⟩) rfl ?_
  · rcases h2 with ⟨-, -, -, hunch⟩
    refine ⟨?_, h.1⟩
    rw [show (update_profile (DB.mk [⟨1, "a@x.com", hash_pw "pw1", none, none, none⟩,
        ⟨2, "b@x.com", hash_pw "pw2", none, none, none⟩] 3 [] 1) 1 "N" "P" "A").users[1]?
      = some ((update_profile (DB.mk [⟨1, "a@x.com", hash_pw "pw1", none, none, none⟩,
        ⟨2, "b@x.com", hash_pw "pw2", none, none, none⟩] 3 [] 1) 1 "N" "P" "A").users.getD 1
        ⟨0, "", "", none, none, none⟩) from rfl]
    rw [hunch (by decide)]
  · rfl

/-- Inserting a row with a strictly smaller id leaves a larger-id head in
place. -/
theorem insertByIdDesc_cons_of_lt (x r : PredRow) (l : List PredRow)
    (h : x.id < r.id) :
    insertByIdDesc x (r :: l) = r :: insertByIdDesc x l := by
  simp only [insertByIdDesc, if_neg (by omega : ¬ r.id ≤ x.id)]

/-- A row whose id exceeds every id of the remaining input stays at the head
of the accumulator throughout the insertion sort. -/
theorem foldr_insertByIdDesc_cons (l : List PredRow) (r : PredRow)
    (acc : List PredRow) (h : ∀ x ∈ l, x.id < r.id) :
    l.foldr insertByIdDesc (r :: acc) = r :: l.foldr insertByIdDesc acc := by
  induction l with
  | nil => rfl
  | cons x xs ih =>
      simp only [List.foldr_cons]
      rw [ih (fun y hy => h y (List.mem_cons_of_mem _ hy))]
      exact insertByIdDesc_cons_of_lt x r _ (h x (List.mem_cons_self _ _))

/-- C3: `get_records` is most-recent-first.  On any well-formed database
(every stored prediction id is below the autoincrement counter): after one
`save_prediction` for a user, `get_records` for that user returns the new
record first; after two saves for the same user it returns them in reverse
insertion order; and for a user with no records it returns the empty list,
not an error. -/
theorem listRecords_most_recent_first (db : DB) (uid : Nat)
    (b1 b2 g1 g2 p1 p2 t1 t2 : String) (ht1 w1 a1 ht2 w2 a2 : ℚ)
    (hwf : ∀ r ∈ db.preds, r.id < db.next_pred_id) :
    (∃ rest, get_records (save_prediction db uid b1 ht1 w1 a1 g1 p1 t1) uid
        = ⟨b1, ht1, w1, a1, g1, p1, t1⟩ :: rest) ∧
    (∃ rest, get_records (save_prediction (save_prediction db uid b1 ht1 w1 a1 g1 p1 t1)
          uid b2 ht2 w2 a2 g2 p2 t2) uid
        = ⟨b2, ht2, w2, a2, g2, p2, t2⟩ :: ⟨b1, ht1, w1, a1, g1, p1, t1⟩ :: rest) ∧
    ((∀ r ∈ db.preds, r.user_id ≠ uid) → get_records db uid = []) := by
  have hfl : ∀ x ∈ db.preds.filter (fun r => r.user_id == uid), x.id < db.next_pred_id :=
    fun x hx => hwf x (List.mem_of_mem_filter hx)
  refine ⟨?_, ?_, ?_⟩
  · refine ⟨(List.foldr insertByIdDesc []
        (db.preds.filter (fun r => r.user_id == uid))).map PredRow.toRecord, ?_⟩
    simp only [get_records, save_prediction, List.filter_append]
    rw [show List.filter (fun r => r.user_id == uid)
          [(⟨db.next_pred_id, uid, b1, ht1, w1, g1, p1, a1, t1⟩ : PredRow)]
        = [⟨db.next_pred_id, uid, b1, ht1, w1, g1, p1, a1, t1⟩] from by simp]
    rw [orderByIdDesc, List.foldr_append]
    rw [show List.foldr insertByIdDesc []
          [(⟨db.next_pred_id, uid, b1, ht1, w1, g1, p1, a1, t1⟩ : PredRow)]
        = (⟨db.next_pred_id, uid, b1, ht1, w1, g1, p1, a1, t1⟩ : PredRow) :: [] from rfl]
    rw [foldr_insertByIdDesc_cons _ _ _ hfl]
    rfl
  · refine ⟨(List.foldr insertByIdDesc []
        (db.preds.filter (fun r => r.user_id == uid))).map PredRow.toRecord, ?_⟩
    simp only [get_records, save_prediction, List.filter_append]
    rw [show List.filter (fun r => r.user_id == uid)
          [(⟨db.next_pred_id, uid, b1, ht1, w1, g1, p1, a1, t1⟩ : PredRow)]
        = [⟨db.next_pred_id, uid, b1, ht1, w1, g1, p1, a1, t1⟩] from by simp]
    rw [show List.filter (fun r => r.user_id == uid)
          [(⟨db.next_pred_id + 1, uid, b2, ht2, w2, g2, p2, a2, t2⟩ : PredRow)]
        = [⟨db.next_pred_id + 1, uid, b2, ht2, w2, g2, p2, a2, t2⟩] from by simp]
    rw [orderByIdDesc, List.foldr_append, List.foldr_append]
    rw [show List.foldr insertByIdDesc
          (List.foldr insertByIdDesc []
            [(⟨db.next_pred_id + 1, uid, b2, ht2, w2, g2, p2, a2, t2⟩ : PredRow)])
          [(⟨db.next_pred_id, uid, b1, ht1, w1, g1, p1, a1, t1⟩ : PredRow)]
        = (⟨db.next_pred_id + 1, uid, b2, ht2, w2, g2, p2, a2, t2⟩ : PredRow)
            :: (⟨db.next_pred_id, uid, b1, ht1, w1, g1, p1, a1, t1⟩ : PredRow) :: [] from by
      simp only [List.foldr_cons, List.foldr_nil]
      exact insertByIdDesc_cons_of_lt _ _ _
        (by show db.next_pred_id < db.next_pred_id + 1; omega)]
    rw [foldr_insertByIdDesc_cons _ _ _ (fun x hx => by
      have := hfl x hx
      show x.id < db.next_pred_id + 1
      omega)]
    rw [foldr_insertByIdDesc_cons _ _ _ hfl]
    rfl
  · intro hnone
    have hfilter : db.preds.filter (fun r => r.user_id == uid) = [] := by
      rw [List.filter_eq_nil_iff]
      intro x hx
      simp [hnone x hx]
    simp [get_records, hfilter, orderByIdDesc]

/-- C3 witness: on the empty database, one save for user 1 makes that record
the head of `get_records`, a second save for user 1 puts the newer record
first, and a user with no records gets the empty list. -/
theorem listRecords_most_recent_first_witness :
    (∀ r ∈ DB.empty.preds, r.id < DB.empty.next_pred_id) ∧
    ((∃ rest, get_records (save_prediction DB.empty 1 "Gir" 130 350 4 "Female" "temp/a.jpg" "t1") 1
        = ⟨"Gir", 130, 350, 4, "Female", "temp/a.jpg", "t1"⟩ :: rest) ∧
     (∃ rest, get_records (save_prediction
           (save_prediction DB.empty 1 "Gir" 130 350 4 "Female" "temp/a.jpg" "t1")
           1 "Sahiwal" 125 320 5 "Male" "temp/b.jpg" "t2") 1
        = ⟨"Sahiwal", 125, 320, 5, "Male", "temp/b.jpg", "t2"⟩
            :: ⟨"Gir", 130, 350, 4, "Female", "temp/a.jpg", "t1"⟩ :: rest) ∧
     ((∀ r ∈ DB.empty.preds, r.user_id ≠ 1) → get_records DB.empty 1 = [])) :=
  ⟨by simp [DB.empty],
   listRecords_most_recent_first DB.empty 1 "Gir" "Sahiwal" "Female" "Male"
     "temp/a.jpg" "temp/b.jpg" "t1" "t2" 130 350 4 125 320 5 (by simp [DB.empty])⟩

/-- C2: the declared `FOREIGN KEY(user_id) REFERENCES users(id)` is not
enforced — the program never issues `PRAGMA foreign_keys = ON`, so
`save_prediction` with a user id that references no user (999 on an empty
users table) raises nothing and inserts the row anyway, instead of failing
with `NotFound`. -/
theorem saveRecord_missing_user_inserts :
    DB.empty.users = [] ∧
    (save_prediction DB.empty 999 "Gir" 130 350 4 "Female" "temp/x.jpg"
        "2026-01-01 00:00:00").preds
      = [⟨1, 999, "Gir", 130, 350, "Female", "temp/x.jpg", 4, "2026-01-01 00:00:00"⟩] :=
  ⟨rfl, rfl⟩

/-- C6: with no model loaded (`model is None`, the Unavailable state),
`predict` returns the sentinel `("Unknown", 0)` for every label index and
every input image, rather than failing. -/
theorem classify_unavailable (idx_to_class : List (Nat × String)) (img : Img) :
    predict none idx_to_class img = ("Unknown", 0) := rfl

/-- C8: a save action with no authenticated user warns "Login first to save"
and leaves the database — in particular the predictions table — exactly as
it was: `save_prediction` is never reached. -/
theorem save_without_login_rejected (db : DB) (breed : String) (h w a : ℚ)
    (g path now : String) :
    page_upload_save db none breed h w a g path now = (db, SaveMsg.loginFirst) := rfl

/-- Invariant specification of `argmaxAux`: if `l` is the suffix of `L` from
position `i`, `best` is the first position of the maximum of the first `i`
entries of `L` and `bestv` its value, then the result is the first position
of the maximum of all of `L`. -/
theorem argmaxAux_spec (L : List ℚ) (l : List ℚ) :
    ∀ (i best : Nat) (bestv : ℚ),
      L.drop i = l → best < i → best < L.length → L.getD best 0 = bestv →
      (∀ j, j < i → L.getD j 0 ≤ bestv) →
      (∀ j, j < best → L.getD j 0 < bestv) →
      argmaxAux l i best bestv < L.length ∧
      (∀ j, j < L.length → L.getD j 0 ≤ L.getD (argmaxAux l i best bestv) 0) ∧
      (∀ j, j < argmaxAux l i best bestv →
         L.getD j 0 < L.getD (argmaxAux l i best bestv) 0) := by
  induction l with
  | nil =>
      intro i best bestv hdrop hbi hbL hval hmax hfirst
      have hle : L.length ≤ i := by
        by_contra hlt
        push_neg at hlt
        have : L.drop i ≠ [] := by
          intro hnil
          rw [List.drop_eq_nil_iff] at hnil
          omega
        exact this hdrop
      simp only [argmaxAux]
      refine ⟨hbL, ?_, ?_⟩
      · intro j hj
        rw [hval]
        exact hmax j (by omega)
      · intro j hj
        rw [hval]
        exact hfirst j hj
  | cons x xs ih =>
      intro i best bestv hdrop hbi hbL hval hmax hfirst
      have hiL : i < L.length := by
        by_contra hge
        push_neg at hge
        rw [List.drop_eq_nil_iff.mpr hge] at hdrop
        exact absurd hdrop (by simp)
      have hcons : L.drop i = L.getD i 0 :: L.drop (i + 1) := by
        rw [List.getD_eq_getElem L 0 hiL]
        exact List.drop_eq_getElem_cons hiL
      rw [hcons] at hdrop
      have hx : L.getD i 0 = x := (List.cons.inj hdrop).1
      have hxs : L.drop (i + 1) = xs := (List.cons.inj hdrop).2
      simp only [argmaxAux]
      by_cases hcmp : bestv < x
      · rw [if_pos hcmp]
        refine ih (i + 1) i x hxs (by omega) hiL hx ?_ ?_
        · intro j hj
          rcases Nat.lt_succ_iff_lt_or_eq.mp hj with hji | hji
          · exact le_of_lt (lt_of_le_of_lt (hmax j hji) hcmp)
          · rw [hji, hx]
        · intro j hj
          exact lt_of_le_of_lt (hmax j hj) hcmp
      · rw [if_neg hcmp]
        push_neg at hcmp
        refine ih (i + 1) best bestv hxs (by omega) hbL hval ?_ hfirst
        intro j hj
        rcases Nat.lt_succ_iff_lt_or_eq.mp hj with hji | hji
        · exact hmax j hji
        · rw [hji, hx]
          exact hcmp

/-- `np.argmax` on a nonempty score row: the result is in range, its score
is maximal, and every earlier position scores strictly less — the first
maximum wins. -/
theorem np_argmax_spec (p : List ℚ) (hne : p ≠ []) :
    np_argmax p < p.length ∧
    (∀ j, j < p.length → p.getD j 0 ≤ p.getD (np_argmax p) 0) ∧
    (∀ j, j < np_argmax p → p.getD j 0 < p.getD (np_argmax p) 0) := by
  match p, hne with
  | x :: xs, _ =>
      have h := argmaxAux_spec (x :: xs) xs 1 0 x (by simp) (by omega) (by simp) rfl
        (by
          intro j hj
          have : j = 0 := by omega
          subst this
          simp [List.getD])
        (by
          intro j hj
          omega)
      simpa [np_argmax] using h

/-- `dict.get(k, default)` on an association list with pairwise-distinct
keys returns the value stored under `k` whenever `k` is present. -/
theorem dictGet_of_mem (idx : List (Nat × String)) (k : Nat) (lbl : String)
    (hnd : (idx.map Prod.fst).Nodup) (hmem : (k, lbl) ∈ idx) :
    dictGet idx k "Unknown" = lbl := by
  induction idx with
  | nil => simp at hmem
  | cons e rest ih =>
      simp only [List.map_cons, List.nodup_cons] at hnd
      rcases List.mem_cons.mp hmem with he | hrest
      · rw [← he]
        simp [dictGet]
      · have hk : e.1 ≠ k := by
          intro hek
          exact hnd.1 (hek ▸ (List.mem_map.mpr ⟨(k, lbl), hrest, rfl⟩))
        simp only [dictGet]
        rw [List.find?_cons_of_neg _ (by simp [hk])]
        exact ih hnd.2 hrest

/-- C7: in Ready state `predict` takes the stable argmax of the score row:
the chosen index is in range, scores maximally, and strictly beats every
earlier index (first index wins on ties); when the label index maps that
position (keys being distinct, as in a Python dict), `predict` returns that
label paired with the score times 100; and scores in [0,1] yield a
confidence in [0,100]. -/
theorem classify_ready_stable_argmax (m : Model) (idx_to_class : List (Nat × String))
    (img : Img) (hne : m.scores img ≠ []) :
    np_argmax (m.scores img) < (m.scores img).length ∧
    (∀ j, j < (m.scores img).length →
       (m.scores img).getD j 0 ≤ (m.scores img).getD (np_argmax (m.scores img)) 0) ∧
    (∀ j, j < np_argmax (m.scores img) →
       (m.scores img).getD j 0 < (m.scores img).getD (np_argmax (m.scores img)) 0) ∧
    (∀ lbl, (idx_to_class.map Prod.fst).Nodup →
       (np_argmax (m.scores img), lbl) ∈ idx_to_class →
       predict (some m) idx_to_class img
         = (lbl, (m.scores img).getD (np_argmax (m.scores img)) 0 * 100)) ∧
    ((∀ x ∈ m.scores img, 0 ≤ x ∧ x ≤ 1) →
       0 ≤ (predict (some m) idx_to_class img).2 ∧
         (predict (some m) idx_to_class img).2 ≤ 100) := by
  obtain ⟨hlt, hmax, hfirst⟩ := np_argmax_spec (m.scores img) hne
  refine ⟨hlt, hmax, hfirst, ?_, ?_⟩
  · intro lbl hnd hmem
    simp only [predict]
    rw [dictGet_of_mem _ _ _ hnd hmem]
  · intro hbound
    have hmem : (m.scores img).getD (np_argmax (m.scores img)) 0 ∈ m.scores img := by
      rw [List.getD_eq_getElem _ _ hlt]
      exact List.getElem_mem hlt
    obtain ⟨h0, h1⟩ := hbound _ hmem
    constructor
    · show 0 ≤ (m.scores img).getD (np_argmax (m.scores img)) 0 * 100
      nlinarith
    · show (m.scores img).getD (np_argmax (m.scores img)) 0 * 100 ≤ 100
      nlinarith

/-- C7 witness: the score row (1/2, 3/4, 3/4) has its top score tied at
positions 1 and 2; the stable argmax picks position 1, whose label is
"Gir", and the confidence is 3/4 times 100 = 75. -/
theorem classify_ready_stable_argmax_witness :
    predict (some ⟨fun _ => [1/2, 3/4, 3/4]⟩) [(0, "A"), (1, "Gir"), (2, "B")] ⟨[]⟩
      = ("Gir", 75) := by
  have h := (classify_ready_stable_argmax ⟨fun _ => [1/2, 3/4, 3/4]⟩
      [(0, "A"), (1, "Gir"), (2, "B")] ⟨[]⟩ (by simp)).2.2.2.1 "Gir" (by simp) ?hm
  case hm =>
    show (np_argmax [1/2, 3/4, 3/4], "Gir") ∈ _
    norm_num [np_argmax, argmaxAux]
  rw [h]
  norm_num [np_argmax, argmaxAux, List.getD]

end Breed
